import Mathlib

/-!
Verification development for log2life (src/main.go).

The program reads access-log lines, derives an 8x8 bit pattern from each
line (an XOR fold of the bytes after the bracketed timestamp) and a grid
coordinate from the client IP address, renders the pattern in the Life 1.05
text format, and replays the lines with timestamp-based pacing.

The definitions below are a shallow embedding of the second (current)
revision of main.go: bytes are `Nat` values below 256, strings are `List
Char` (the program's inputs of interest are ASCII, where Go's byte view of a
string coincides with the code points), Go's `float64` steps are modelled by
exact rational arithmetic at the places where the double-precision
computation is exact (noted at each use), and Go's partial slice indexing is
modelled with `Option`, a panic being a distinguished outcome.
-/

namespace Log2Life

/-- Byte values of an ASCII string literal (each char's code point; only used
on ASCII text, where Go's byte view of the string coincides with code
points). -/
def strBytes (s : String) : List Nat := s.data.map Char.toNat

/-- XOR-fold loop of `LineToPattern` (src/main.go lines 313-322): for each
byte, a double quote (byte 34) is skipped, otherwise `data[idx] ^= b` and
`idx = (idx + 1) % 8`. -/
def encodeLoop : List Nat → List Nat → Nat → List Nat
  | [], data, _ => data
  | b :: rest, data, idx =>
    if b = 34 then encodeLoop rest data idx
    else encodeLoop rest (data.set idx (data.getD idx 0 ^^^ b)) ((idx + 1) % 8)

/-- The 8-byte fingerprint fold of `LineToPattern`: start from 8 zero bytes
and fold index 0 (src/main.go lines 313-314). -/
def encode (payload : List Nat) : List Nat :=
  encodeLoop payload (List.replicate 8 0) 0

theorem encodeLoop_filter : ∀ (q data : List Nat) (idx : Nat),
    encodeLoop q data idx = encodeLoop (q.filter (fun b => b ≠ 34)) data idx
  | [], _, _ => rfl
  | b :: rest, data, idx => by
    by_cases hb : b = 34
    · subst hb
      simpa [encodeLoop, List.filter_cons] using encodeLoop_filter rest data idx
    · simpa [encodeLoop, List.filter_cons, hb] using
        encodeLoop_filter rest (data.set idx (data.getD idx 0 ^^^ b)) ((idx + 1) % 8)

/-- C5: for every payload byte sequence `p`, `encode p` equals `encode` of
`p` with all double-quote bytes removed: a quote character never advances
the fold index and never alters any fingerprint byte. -/
theorem C5_encode_ignores_quotes (p : List Nat) :
    encode p = encode (p.filter (fun b => b ≠ 34)) :=
  encodeLoop_filter p (List.replicate 8 0) 0

/-- XOR of all bytes of a list (the identity 0 is the XOR unit). -/
def xorAll (l : List Nat) : Nat := l.foldr (fun a b => a ^^^ b) 0

/-- Bytes of a list whose position (starting from the given counter) is
congruent to `j` modulo 8. -/
def selectMod8 (j : Nat) : List Nat → Nat → List Nat
  | [], _ => []
  | b :: rest, i => if i % 8 = j then b :: selectMod8 j rest (i + 1) else selectMod8 j rest (i + 1)

/-- Fingerprint byte `j` as the spec words it: the XOR of all non-quote
payload bytes whose quote-skipping fold position `i` satisfies `i % 8 = j`. -/
def specByte (p : List Nat) (j : Nat) : Nat :=
  xorAll (selectMod8 j (p.filter (fun b => b ≠ 34)) 0)

theorem selectMod8_congr (j : Nat) : ∀ (q : List Nat) (i i' : Nat), i % 8 = i' % 8 →
    selectMod8 j q i = selectMod8 j q i'
  | [], _, _, _ => rfl
  | b :: rest, i, i', h => by
    have h' : (i + 1) % 8 = (i' + 1) % 8 := by omega
    simp [selectMod8, h, selectMod8_congr j rest (i + 1) (i' + 1) h']

theorem encodeLoop_length : ∀ (q data : List Nat) (idx : Nat),
    (encodeLoop q data idx).length = data.length
  | [], _, _ => rfl
  | b :: rest, data, idx => by
    by_cases hb : b = 34
    · simp [encodeLoop, hb, encodeLoop_length rest data idx]
    · simp [encodeLoop, hb, encodeLoop_length rest _ ((idx + 1) % 8)]

theorem encodeLoop_getD : ∀ (q data : List Nat) (idx j : Nat),
    data.length = 8 → idx < 8 → j < 8 →
    (encodeLoop q data idx).getD j 0
      = data.getD j 0 ^^^ xorAll (selectMod8 j (q.filter (fun b => b ≠ 34)) idx)
  | [], data, idx, j, _, _, _ => by
    simp [encodeLoop, selectMod8, xorAll, List.filter_nil]
  | b :: rest, data, idx, j, hd, hi, hj => by
    by_cases hb : b = 34
    · subst hb
      simpa [encodeLoop, List.filter_cons] using encodeLoop_getD rest data idx j hd hi hj
    · have hlen : (data.set idx (data.getD idx 0 ^^^ b)).length = 8 := by simp [hd]
      have hi' : (idx + 1) % 8 < 8 := Nat.mod_lt _ (by norm_num)
      have IH := encodeLoop_getD rest (data.set idx (data.getD idx 0 ^^^ b))
        ((idx + 1) % 8) j hlen hi' hj
      have hshift : selectMod8 j (rest.filter (fun x => x ≠ 34)) (idx + 1)
          = selectMod8 j (rest.filter (fun x => x ≠ 34)) ((idx + 1) % 8) :=
        selectMod8_congr j _ _ _ (by omega)
      have hidx : idx % 8 = idx := Nat.mod_eq_of_lt hi
      have step : encodeLoop (b :: rest) data idx
          = encodeLoop rest (data.set idx (data.getD idx 0 ^^^ b)) ((idx + 1) % 8) := by
        simp [encodeLoop, hb]
      have hfil : (b :: rest).filter (fun x => x ≠ 34)
          = b :: rest.filter (fun x => x ≠ 34) := by
        simp [List.filter_cons, hb]
      rw [step, IH, hfil]
      by_cases hij : idx = j
      · subst hij
        have hset : (data.set idx (data.getD idx 0 ^^^ b)).getD idx 0
            = data.getD idx 0 ^^^ b := by
          rw [List.getD_eq_getElem?_getD, List.getElem?_set_self (by omega), Option.getD_some]
        rw [hset]
        simp only [selectMod8, hidx, if_pos rfl]
        rw [hshift]
        simp [xorAll, Nat.xor_assoc]
      · have hset : (data.set idx (data.getD idx 0 ^^^ b)).getD j 0 = data.getD j 0 := by
          rw [List.getD_eq_getElem?_getD, List.getElem?_set_ne hij,
            ← List.getD_eq_getElem?_getD]
        rw [hset]
        simp only [selectMod8, hidx, if_neg hij]
        rw [hshift]

/-- C6: for every payload byte sequence, `encode` returns exactly 8 bytes,
where fingerprint byte `j` is the XOR of all non-quote payload bytes whose
quote-skipping fold position `i` satisfies `i % 8 = j`, starting from 8 zero
bytes; the empty payload yields 8 zero bytes (`encode` is a pure function,
hence deterministic). -/
theorem C6_encode_eight_byte_xor_fold (p : List Nat) :
    (encode p).length = 8 ∧ encode [] = List.replicate 8 0 ∧
      ∀ j, j < 8 → (encode p).getD j 0 = specByte p j := by
  refine ⟨by simp [encode, encodeLoop_length], rfl, fun j hj => ?_⟩
  have h := encodeLoop_getD p (List.replicate 8 0) 0 j (by simp) (by norm_num) hj
  rw [encode, h, specByte]
  rw [List.getD_eq_getElem?_getD, List.getElem?_replicate_of_lt hj, Option.getD_some,
    Nat.zero_xor]

/-- Witness for C6 at a concrete payload and byte index. -/
theorem C6_witness :
    (encode (strBytes "GET / HTTP/1.1")).length = 8 ∧
      ((3 : Nat) < 8 ∧
        (encode (strBytes "GET / HTTP/1.1")).getD 3 0 = specByte (strBytes "GET / HTTP/1.1") 3) :=
  ⟨(C6_encode_eight_byte_xor_fold (strBytes "GET / HTTP/1.1")).1,
    by norm_num,
    (C6_encode_eight_byte_xor_fold (strBytes "GET / HTTP/1.1")).2.2 3 (by norm_num)⟩

/-- Row loop of `MakeLife105` (src/main.go lines 367-378): 8 iterations; each
tests the top bit of the byte (`b & 0x80 == 0x80`, alive `*`, dead `.`) and
then shifts the byte left (`b = b << 1`, which on a Go `byte` truncates to 8
bits, modelled by `% 256`). -/
def rowChars : Nat → Nat → List Char
  | _, 0 => []
  | b, n + 1 => (if b &&& 128 = 128 then '*' else '.') :: rowChars ((b <<< 1) % 256) n

/-- One data row of the Life 1.05 pattern, as a string of 8 cells. -/
def rowStr (b : Nat) : String := String.mk (rowChars b 8)

/-- MakeLife105 (src/main.go lines 359-382): the four header lines followed
by one row per fingerprint byte. -/
def MakeLife105 (x y : Int) (data : List Nat) : List String :=
  ["#Life 1.05", "#D log2life ouput", "#N",
    "#P " ++ toString x ++ " " ++ toString y] ++ data.map rowStr

theorem rowChars_bits : ∀ b : Nat, b < 256 → ∀ k : Nat, k < 8 →
    ((rowChars b 8).getD k 'x' = '*' ∨ (rowChars b 8).getD k 'x' = '.') ∧
      ((rowChars b 8).getD k 'x' = '*' ↔ Nat.testBit b (7 - k)) := by
  set_option maxRecDepth 4096 in decide

theorem rowChars_length (b : Nat) : (rowChars b 8).length = 8 := rfl

theorem makeLife105_row (x y : Int) (data : List Nat) (i : Nat) (hi : i < data.length) :
    (MakeLife105 x y data).getD (i + 4) "" = rowStr (data.getD i 0) := by
  have h4 : (MakeLife105 x y data).getD (i + 4) "" = (data.map rowStr).getD i "" := rfl
  rw [h4, List.getD_eq_getElem?_getD, List.getElem?_map,
    List.getElem?_eq_getElem (by simpa using hi), List.getD_eq_getElem?_getD,
    List.getElem?_eq_getElem hi]
  rfl

theorem getD_mem_of_lt {l : List Nat} {i : Nat} (hi : i < l.length) : l.getD i 0 ∈ l := by
  rw [List.getD_eq_getElem?_getD, List.getElem?_eq_getElem hi, Option.getD_some]
  exact List.getElem_mem hi

/-- C7: for every coordinate and every 8-byte fingerprint (bytes below 256),
`MakeLife105` returns exactly 4 header lines (the format tag `#Life 1.05`,
a description line, `#N`, and `#P x y` with `x` and `y` rendered as decimal
integers separated by a space) followed by exactly 8 lines of exactly 8
characters, each drawn from the alive and dead cell characters, where row
`i` character `k` is alive exactly when bit `7 - k` of fingerprint byte `i`
is set. -/
theorem C7_render_shape (x y : Int) (data : List Nat)
    (hlen : data.length = 8) (hbytes : ∀ b ∈ data, b < 256) :
    (MakeLife105 x y data).length = 12 ∧
    (MakeLife105 x y data).take 4
      = ["#Life 1.05", "#D log2life ouput", "#N",
          "#P " ++ toString x ++ " " ++ toString y] ∧
    ∀ i, i < 8 →
      ((MakeLife105 x y data).getD (i + 4) "").data.length = 8 ∧
      ∀ k, k < 8 →
        (((MakeLife105 x y data).getD (i + 4) "").data.getD k 'x' = '*' ∨
          ((MakeLife105 x y data).getD (i + 4) "").data.getD k 'x' = '.') ∧
        (((MakeLife105 x y data).getD (i + 4) "").data.getD k 'x' = '*' ↔
          Nat.testBit (data.getD i 0) (7 - k)) := by
  refine ⟨by simp [MakeLife105, hlen], rfl, fun i hi => ?_⟩
  have hrow := makeLife105_row x y data i (by omega)
  have hb : data.getD i 0 < 256 := hbytes _ (getD_mem_of_lt (by omega))
  rw [hrow]
  exact ⟨rowChars_length _, fun k hk => rowChars_bits _ hb k hk⟩

/-- Witness for C7 at a concrete coordinate and fingerprint. -/
theorem C7_witness :
    (MakeLife105 1 (-2) [0, 255, 1, 2, 3, 128, 64, 7]).length = 12 ∧
      (MakeLife105 1 (-2) [0, 255, 1, 2, 3, 128, 64, 7]).take 4
        = ["#Life 1.05", "#D log2life ouput", "#N", "#P 1 -2"] ∧
      ((MakeLife105 1 (-2) [0, 255, 1, 2, 3, 128, 64, 7]).getD 5 "").data.getD 0 'x' = '*' := by
  have h := C7_render_shape 1 (-2) [0, 255, 1, 2, 3, 128, 64, 7] (by decide) (by decide)
  refine ⟨h.1, by rw [h.2.1]; rfl, ?_⟩
  have h5 := (h.2.2 1 (by norm_num)).2 0 (by norm_num)
  exact h5.2.mpr (by decide)

theorem encodeLoop_lt_128 : ∀ (q data : List Nat) (idx : Nat),
    (∀ b ∈ q, b < 128) → (∀ b ∈ data, b < 128) → ∀ b ∈ encodeLoop q data idx, b < 128
  | [], _, _, _, hdata => hdata
  | b :: rest, data, idx, hq, hdata => by
    by_cases hb : b = 34
    · rw [encodeLoop, if_pos hb]
      exact encodeLoop_lt_128 rest data idx (fun c hc => hq c (List.mem_cons_of_mem _ hc)) hdata
    · rw [encodeLoop, if_neg hb]
      refine encodeLoop_lt_128 rest _ _ (fun c hc => hq c (List.mem_cons_of_mem _ hc)) ?_
      intro c hc
      rcases List.mem_or_eq_of_mem_set hc with hmem | rfl
      · exact hdata c hmem
      · have hdflt : data.getD idx 0 < 128 := by
          by_cases hidx : idx < data.length
          · exact hdata _ (getD_mem_of_lt hidx)
          · rw [List.getD_eq_getElem?_getD, List.getElem?_eq_none (by omega)]
            norm_num
        have h1 : data.getD idx 0 < 2 ^ 7 := hdflt
        have h2 : b < 2 ^ 7 := hq b (List.mem_cons_self _ _)
        exact Nat.xor_lt_two_pow h1 h2

/-- C10: for every payload whose bytes are all below 128 (7-bit ASCII),
every fingerprint byte of the XOR fold is below 128, so the top bit of each
row byte is clear and the first character of each of the 8 rendered rows is
the dead cell: the leftmost column of the emitted pattern grid is never
alive for ASCII input. -/
theorem C10_ascii_left_column_dead (p : List Nat) (x y : Int)
    (h : ∀ b ∈ p, b < 128) :
    (∀ b ∈ encode p, b < 128) ∧
      ∀ row ∈ (MakeLife105 x y (encode p)).drop 4, row.data.getD 0 'x' = '.' := by
  have henc : ∀ b ∈ encode p, b < 128 := encodeLoop_lt_128 p _ 0 h (by simp)
  refine ⟨henc, ?_⟩
  intro row hrow
  have hdrop : (MakeLife105 x y (encode p)).drop 4 = (encode p).map rowStr := rfl
  rw [hdrop] at hrow
  obtain ⟨b, hbmem, rfl⟩ := List.mem_map.1 hrow
  have hb := henc b hbmem
  have hand : b &&& 128 ≠ 128 := by
    have hle : b &&& 128 ≤ b := Nat.and_le_left
    omega
  show (rowChars b 8).getD 0 'x' = '.'
  rw [rowChars, if_neg hand]
  rfl

/-- Witness for C10: the first cell of the first rendered row of a concrete
ASCII payload is dead. -/
theorem C10_witness :
    (((MakeLife105 0 0 (encode (strBytes "GET / HTTP/1.1"))).drop 4).getD 0 "").data.getD
      0 'x' = '.' :=
  (C10_ascii_left_column_dead (strBytes "GET / HTTP/1.1") 0 0 (by decide)).2 _ (by decide)

/-!
Address parsing. `IPToXY` (src/main.go lines 329-343) calls `net.ParseIP`,
which returns either nil or a 16-byte address (an IPv4 dotted quad is
returned in its IPv4-in-IPv6 form, so indices 12-15 hold the four dotted
fields). The definitions below model the Go standard library parser
(`netip.ParseAddr` reached through `net.ParseIP`): the string is scanned for
the first of `.`, `:` or `%`; a dot selects the dotted-quad parser, a colon
the IPv6 parser and a bare `%` fails. `net.ParseIP` also rejects every
address carrying a zone, so any `%` anywhere makes the overall result nil;
the IPv6 model therefore fails directly on `%`. Go's `uint8`/`byte`
conversions are written as `% 256`.
-/

/-- Dotted-quad parser loop (Go `netip.parseIPv4`): decimal fields separated
by dots, no leading zeros, each value at most 255, exactly four fields. The
arguments mirror the Go locals `val`, `digLen`, `pos` and the `fields`
written so far. -/
def parseV4Loop : List Char → Nat → Nat → Nat → List Nat → Option (List Nat)
  | [], val, _, pos, fields =>
    if pos < 3 then none else some (fields ++ [val % 256])
  | c :: rest, val, digLen, pos, fields =>
    if '0' ≤ c ∧ c ≤ '9' then
      if digLen = 1 ∧ val = 0 then none
      else
        if 255 < val * 10 + (c.toNat - 48) then none
        else parseV4Loop rest (val * 10 + (c.toNat - 48)) (digLen + 1) pos fields
    else if c = '.' then
      if digLen = 0 ∨ rest = [] then none
      else if pos = 3 then none
      else parseV4Loop rest 0 0 (pos + 1) (fields ++ [val % 256])
    else none

/-- Go `netip.parseIPv4`: four bytes of a dotted quad. -/
def parseIPv4 (s : List Char) : Option (List Nat) := parseV4Loop s 0 0 0 []

/-- The IPv4-in-IPv6 prefix used by `As16` on a parsed dotted quad. -/
def v4InV6 : List Nat := [0, 0, 0, 0, 0, 0, 0, 0, 0, 0, 255, 255]

/-- Hex digit value, ASCII only, as in Go `netip.parseIPv6`. -/
def hexDigit (c : Char) : Option Nat :=
  if '0' ≤ c ∧ c ≤ '9' then some (c.toNat - 48)
  else if 'a' ≤ c ∧ c ≤ 'f' then some (c.toNat - 97 + 10)
  else if 'A' ≤ c ∧ c ≤ 'F' then some (c.toNat - 65 + 10)
  else none

/-- Hex group reader of `netip.parseIPv6`: reads leading hex digits (at most
four, value at most 0xFFFF), returning the accumulated value and the rest of
the string; fails when no digit is present. -/
def readHex : List Char → Nat → Nat → Option (Nat × List Char)
  | [], cnt, acc => if cnt = 0 then none else some (acc, [])
  | c :: rest, cnt, acc =>
    match hexDigit c with
    | none => if cnt = 0 then none else some (acc, c :: rest)
    | some d =>
      if 3 < cnt then none
      else if 65535 < acc * 16 + d then none
      else readHex rest (cnt + 1) (acc * 16 + d)

/-- End-of-loop processing of `netip.parseIPv6`: the entire string must be
consumed; a short address needs an ellipsis, which expands to zero bytes in
the middle; a full 16-byte address must not contain an ellipsis. -/
def v6Finish (s : List Char) (i : Nat) (ip : List Nat) (ell : Option Nat) : Option (List Nat) :=
  if s ≠ [] then none
  else if i < 16 then
    match ell with
    | none => none
    | some e => some (ip.take e ++ List.replicate (16 - i) 0 ++ ip.drop e)
  else
    match ell with
    | some _ => none
    | none => some ip

/-- Main loop of `netip.parseIPv6`, with fuel (every iteration consumes at
least one character, so `length + 1` fuel never runs out). State: remaining
string, bytes written `i`, bytes `ip`, and the ellipsis position. The first
match branch is the embedded dotted quad (hex digits directly followed by a
dot at group position 12 or after an ellipsis); the byte writes
`byte(acc>>8)` and `byte(acc)` are `% 256`. -/
def v6Loop : Nat → List Char → Nat → List Nat → Option Nat → Option (List Nat)
  | 0, _, _, _, _ => none
  | fuel + 1, s, i, ip, ell =>
    if 16 ≤ i then v6Finish s i ip ell
    else
      match readHex s 0 0 with
      | none => none
      | some (acc, s1) =>
        if s1 ≠ [] ∧ s1.headD ' ' = '.' then
          if ell = none ∧ i ≠ 12 then none
          else if 16 < i + 4 then none
          else
            match parseIPv4 s with
            | none => none
            | some f4 => v6Finish [] (i + 4) (ip ++ f4) ell
        else if s1 = [] then
          v6Finish [] (i + 2) (ip ++ [(acc >>> 8) % 256, acc % 256]) ell
        else if s1.headD ' ' ≠ ':' then none
        else if s1.length = 1 then none
        else if (s1.drop 1).headD ' ' = ':' then
          if ell.isSome then none
          else if s1.drop 2 = [] then
            v6Finish [] (i + 2) (ip ++ [(acc >>> 8) % 256, acc % 256]) (some (i + 2))
          else
            v6Loop fuel (s1.drop 2) (i + 2) (ip ++ [(acc >>> 8) % 256, acc % 256]) (some (i + 2))
        else v6Loop fuel (s1.drop 1) (i + 2) (ip ++ [(acc >>> 8) % 256, acc % 256]) ell

/-- Go `netip.parseIPv6` as reached through `net.ParseIP`: a `%` (zone)
anywhere makes `net.ParseIP` return nil, so it fails here; a leading `::`
sets the ellipsis at 0, and a bare `::` is the all-zero address. -/
def parseIPv6 (s : List Char) : Option (List Nat) :=
  if s.any (fun c => c = '%') then none
  else if s.take 2 = [':', ':'] then
    if s.drop 2 = [] then some (List.replicate 16 0)
    else v6Loop ((s.drop 2).length + 1) (s.drop 2) 0 [] (some 0)
  else v6Loop (s.length + 1) s 0 [] none

/-- Scan of `netip.ParseAddr`: the first of `.`, `:`, `%` decides the
format; no such character means the string is not an address. -/
def dispatch (full : List Char) : List Char → Option (List Nat)
  | [] => none
  | c :: rest =>
    if c = '.' then (parseIPv4 full).map (fun f4 => v4InV6 ++ f4)
    else if c = ':' then parseIPv6 full
    else if c = '%' then none
    else dispatch full rest

/-- Go `net.ParseIP`, returning the 16-byte form (`As16`) or nothing. -/
def ParseIP (s : String) : Option (List Nat) := dispatch s.data s.data

/-- Truncation of a rational toward zero, modelling Go conversion of a
`float64` value to an integer type (`Int.tdiv` rounds toward zero). -/
def truncQ (q : ℚ) : Int := Int.tdiv q.num (q.den : Int)

/-- IPToXY (src/main.go lines 329-343). A nil parse yields (0, 0); otherwise
the two 16-bit halves of the last four address bytes are scaled to the world
size and recentred. The Go expression is
`int(float64(int(ip[12])<<8+int(ip[13]))/0xffff*float64(width)) - width/2`;
the `float64` steps are modelled with exact rational arithmetic. At every
input exercised by a counterexample below the double-precision computation
is exact (the division of equal values is exactly 1.0, and the products and
small quotients involved round to the same truncated integer), and for any
width below 2^53 the bound theorems transfer: rounding a real below the
representable bound `width` cannot exceed `width`. `width/2` in Go is
integer division truncating toward zero, `Int.tdiv` here. -/
def IPToXY (addr : String) (width height : Int) : Int × Int :=
  match ParseIP addr with
  | none => (0, 0)
  | some ip =>
    (truncQ (((ip.getD 12 0 * 256 + ip.getD 13 0 : Nat) : ℚ) / 65535 * (width : ℚ))
        - Int.tdiv width 2,
      truncQ (((ip.getD 14 0 * 256 + ip.getD 15 0 : Nat) : ℚ) / 65535 * (height : ℚ))
        - Int.tdiv height 2)

theorem parseV4Loop_sound : ∀ (s : List Char) (val digLen pos : Nat) (fields r : List Nat),
    fields.length = pos → pos ≤ 3 → (∀ b ∈ fields, b < 256) →
    parseV4Loop s val digLen pos fields = some r →
    r.length = 4 ∧ ∀ b ∈ r, b < 256
  | [], val, digLen, pos, fields, r, hfl, hp, hb, h => by
    rw [parseV4Loop] at h
    split at h
    · exact absurd h (by simp)
    · rename_i hpos
      injection h with h
      subst h
      refine ⟨by simp [hfl]; omega, fun b hb' => ?_⟩
      rcases List.mem_append.1 hb' with h1 | h2
      · exact hb _ h1
      · simp only [List.mem_singleton] at h2
        subst h2
        exact Nat.mod_lt _ (by norm_num)
  | c :: rest, val, digLen, pos, fields, r, hfl, hp, hb, h => by
    rw [parseV4Loop] at h
    split at h
    · split at h
      · exact absurd h (by simp)
      · split at h
        · exact absurd h (by simp)
        · exact parseV4Loop_sound rest _ _ pos fields r hfl hp hb h
    · split at h
      · split at h
        · exact absurd h (by simp)
        · split at h
          · exact absurd h (by simp)
          · rename_i hpos3
            refine parseV4Loop_sound rest 0 0 (pos + 1) _ r (by simp [hfl]) (by omega) ?_ h
            intro b hb'
            rcases List.mem_append.1 hb' with h1 | h2
            · exact hb _ h1
            · simp only [List.mem_singleton] at h2
              subst h2
              exact Nat.mod_lt _ (by norm_num)
      · exact absurd h (by simp)

theorem parseIPv4_sound (s : List Char) (r : List Nat) (h : parseIPv4 s = some r) :
    r.length = 4 ∧ ∀ b ∈ r, b < 256 :=
  parseV4Loop_sound s 0 0 0 [] r rfl (by norm_num) (by simp) h

theorem v6Finish_sound (s : List Char) (i : Nat) (ip : List Nat) (ell : Option Nat)
    (r : List Nat) (hfl : ip.length = i) (hi : i ≤ 16) (hb : ∀ b ∈ ip, b < 256)
    (hell : ∀ e, ell = some e → e ≤ i) (h : v6Finish s i ip ell = some r) :
    r.length = 16 ∧ ∀ b ∈ r, b < 256 := by
  unfold v6Finish at h
  split at h
  · exact absurd h (by simp)
  · split at h
    · match hell2 : ell with
      | none => exact absurd h (by simp)
      | some e =>
        simp only [Option.some.injEq] at h
        subst h
        have he : e ≤ i := hell e rfl
        constructor
        · simp only [List.length_append, List.length_take, List.length_replicate,
            List.length_drop, hfl]
          omega
        · intro b hb'
          rcases List.mem_append.1 hb' with h1 | h2
          · rcases List.mem_append.1 h1 with h3 | h4
            · exact hb _ (List.take_subset _ _ h3)
            · rw [List.eq_of_mem_replicate h4]
              norm_num
          · exact hb _ (List.drop_subset _ _ h2)
    · match hell2 : ell with
      | some e => exact absurd h (by simp)
      | none =>
        simp only [Option.some.injEq] at h
        subst h
        exact ⟨by omega, hb⟩

theorem appendChunk_bound (ip : List Nat) (acc : Nat) (hb : ∀ b ∈ ip, b < 256) :
    ∀ b ∈ ip ++ [(acc >>> 8) % 256, acc % 256], b < 256 := by
  intro b hb'
  rcases List.mem_append.1 hb' with h1 | h2
  · exact hb _ h1
  · simp only [List.mem_cons, List.not_mem_nil, or_false] at h2
    rcases h2 with h2 | h2 <;> (subst h2; exact Nat.mod_lt _ (by norm_num))

theorem appendChunk_length (ip : List Nat) (acc : Nat) (i : Nat) (hfl : ip.length = i) :
    (ip ++ [(acc >>> 8) % 256, acc % 256]).length = i + 2 := by
  simp [hfl]

theorem v6Loop_sound : ∀ (fuel : Nat) (s : List Char) (i : Nat) (ip : List Nat)
    (ell : Option Nat) (r : List Nat),
    ip.length = i → i ≤ 16 → i % 2 = 0 → (∀ b ∈ ip, b < 256) →
    (∀ e, ell = some e → e ≤ i) →
    v6Loop fuel s i ip ell = some r →
    r.length = 16 ∧ ∀ b ∈ r, b < 256
  | 0, _, _, _, _, _, _, _, _, _, _, h => absurd h (by simp [v6Loop])
  | fuel + 1, s, i, ip, ell, r, hfl, hi, hev, hb, hell, h => by
    rw [v6Loop] at h
    split at h
    · exact v6Finish_sound s i ip ell r hfl hi hb hell h
    · rename_i hi16
      split at h
      · exact absurd h (by simp)
      · rename_i acc s1 heq
        split at h
        · split at h
          · exact absurd h (by simp)
          · split at h
            · exact absurd h (by simp)
            · rename_i hroom
              split at h
              · exact absurd h (by simp)
              · rename_i f4 hp4
                obtain ⟨hf4len, hf4b⟩ := parseIPv4_sound s f4 hp4
                refine v6Finish_sound [] (i + 4) (ip ++ f4) ell r ?_ (by omega) ?_ ?_ h
                · simp [hfl, hf4len]
                · intro b hb'
                  rcases List.mem_append.1 hb' with h1 | h2
                  · exact hb _ h1
                  · exact hf4b _ h2
                · intro e he
                  exact Nat.le_trans (hell e he) (by omega)
        · split at h
          · refine v6Finish_sound [] (i + 2) _ ell r (appendChunk_length ip acc i hfl)
              (by omega) (appendChunk_bound ip acc hb) ?_ h
            intro e he
            exact Nat.le_trans (hell e he) (by omega)
          · split at h
            · exact absurd h (by simp)
            · split at h
              · exact absurd h (by simp)
              · split at h
                · split at h
                  · exact absurd h (by simp)
                  · split at h
                    · refine v6Finish_sound [] (i + 2) _ (some (i + 2)) r
                        (appendChunk_length ip acc i hfl) (by omega)
                        (appendChunk_bound ip acc hb) ?_ h
                      intro e he
                      injection he with he
                      omega
                    · refine v6Loop_sound fuel _ (i + 2) _ (some (i + 2)) r
                        (appendChunk_length ip acc i hfl) (by omega) (by omega)
                        (appendChunk_bound ip acc hb) ?_ h
                      intro e he
                      injection he with he
                      omega
                · refine v6Loop_sound fuel _ (i + 2) _ ell r
                    (appendChunk_length ip acc i hfl) (by omega) (by omega)
                    (appendChunk_bound ip acc hb) ?_ h
                  intro e he
                  exact Nat.le_trans (hell e he) (by omega)

theorem parseIPv6_sound (s : List Char) (r : List Nat) (h : parseIPv6 s = some r) :
    r.length = 16 ∧ ∀ b ∈ r, b < 256 := by
  rw [parseIPv6] at h
  split at h
  · exact absurd h (by simp)
  · split at h
    · split at h
      · injection h with h
        subst h
        refine ⟨by simp, fun b hb => ?_⟩
        rw [List.eq_of_mem_replicate hb]
        norm_num
      · exact v6Loop_sound _ (s.drop 2) 0 [] (some 0) r rfl (by norm_num) (by norm_num)
          (by simp) (by intro e he; injection he with he; omega) h
    · exact v6Loop_sound _ s 0 [] none r rfl (by norm_num) (by norm_num)
        (by simp) (by intro e he; exact absurd he (by simp)) h

theorem dispatch_sound : ∀ (scan full : List Char) (r : List Nat),
    dispatch full scan = some r → r.length = 16 ∧ ∀ b ∈ r, b < 256
  | [], _, _, h => absurd h (by simp [dispatch])
  | c :: rest, full, r, h => by
    rw [dispatch] at h
    split at h
    · match hp4 : parseIPv4 full with
      | none => rw [hp4] at h; exact absurd h (by simp)
      | some f4 =>
        rw [hp4] at h
        simp only [Option.map_some', Option.some.injEq] at h
        subst h
        obtain ⟨hf4len, hf4b⟩ := parseIPv4_sound full f4 hp4
        refine ⟨by simp [v4InV6, hf4len], fun b hb => ?_⟩
        rcases List.mem_append.1 hb with h1 | h2
        · simp only [v4InV6, List.mem_cons, List.not_mem_nil, or_false] at h1
          rcases h1 with rfl | rfl | rfl | rfl | rfl | rfl | rfl | rfl | rfl | rfl | rfl | rfl <;>
            norm_num
        · exact hf4b _ h2
    · split at h
      · exact parseIPv6_sound full r h
      · split at h
        · exact absurd h (by simp)
        · exact dispatch_sound rest full r h

theorem ParseIP_sound (s : String) (r : List Nat) (h : ParseIP s = some r) :
    r.length = 16 ∧ ∀ b ∈ r, b < 256 :=
  dispatch_sound s.data s.data r h

theorem truncQ_eq_floor {q : ℚ} (h : 0 ≤ q) : truncQ q = ⌊q⌋ := by
  rw [Rat.floor_def, truncQ,
    Int.tdiv_eq_ediv (Rat.num_nonneg.2 h) (by exact_mod_cast Nat.zero_le q.den)]

theorem truncQ_nonneg {q : ℚ} (h : 0 ≤ q) : 0 ≤ truncQ q := by
  rw [truncQ_eq_floor h]
  exact Int.floor_nonneg.2 h

theorem truncQ_le_int {q : ℚ} {W : Int} (h0 : 0 ≤ q) (h : q ≤ (W : ℚ)) : truncQ q ≤ W := by
  rw [truncQ_eq_floor h0]
  have hf := Int.floor_le_floor h
  rw [Int.floor_intCast] at hf
  exact hf


theorem truncQ_intCast (n : Int) : truncQ (n : ℚ) = n := by
  rw [truncQ, Rat.num_intCast, Rat.den_intCast]
  simp

theorem scale_bounds (u : Nat) (W : Int) (hu : u ≤ 65535) (hW : 0 ≤ W) :
    0 ≤ truncQ ((u : ℚ) / 65535 * (W : ℚ)) ∧ truncQ ((u : ℚ) / 65535 * (W : ℚ)) ≤ W := by
  have h1 : (0 : ℚ) ≤ (u : ℚ) / 65535 := by positivity
  have h2 : (u : ℚ) / 65535 ≤ 1 := by
    rw [div_le_one (by norm_num)]
    exact_mod_cast hu
  have hW' : (0 : ℚ) ≤ (W : ℚ) := by exact_mod_cast hW
  have h0 : (0 : ℚ) ≤ (u : ℚ) / 65535 * (W : ℚ) := mul_nonneg h1 hW'
  have hle : (u : ℚ) / 65535 * (W : ℚ) ≤ (W : ℚ) := by
    calc (u : ℚ) / 65535 * (W : ℚ) ≤ 1 * (W : ℚ) := mul_le_mul_of_nonneg_right h2 hW'
    _ = (W : ℚ) := one_mul _
  exact ⟨truncQ_nonneg h0, truncQ_le_int h0 hle⟩

/-- C2 counterexample: the address `255.255.255.255` is a valid dotted quad,
yet with width 100 and height 100 the x coordinate is 50, which is not below
`width/2 = 50`: the interval is not half-open on the right. At this input
the Go double-precision computation is exact (65535.0/65535.0 is exactly 1.0
and 1.0*100.0 is exactly 100.0), so the rational model coincides with the
code. -/
theorem C2_counterexample :
    (ParseIP "255.255.255.255").isSome = true ∧
      (IPToXY "255.255.255.255" 100 100).1 = 50 ∧
      ¬ ((IPToXY "255.255.255.255" 100 100).1 < Int.tdiv 100 2) := by
  have hp : ParseIP "255.255.255.255"
      = some [0, 0, 0, 0, 0, 0, 0, 0, 0, 0, 255, 255, 255, 255, 255, 255] := rfl
  have hx : (IPToXY "255.255.255.255" 100 100).1 = 50 := by
    simp only [IPToXY, hp]
    have h1 : ((255 * 256 + 255 : Nat) : ℚ) / 65535 * ((100 : Int) : ℚ)
        = ((100 : Int) : ℚ) := by norm_num
    show truncQ (((255 * 256 + 255 : Nat) : ℚ) / 65535 * ((100 : Int) : ℚ))
        - Int.tdiv 100 2 = 50
    rw [h1, truncQ_intCast]
    decide
  refine ⟨by rw [hp]; rfl, hx, ?_⟩
  rw [hx]
  decide

/-- C2 (amended): for every address string and positive width and height,
the mapped coordinate satisfies `x ∈ [-(W/2), W - W/2]` and
`y ∈ [-(H/2), H - H/2]` (integer division truncating toward zero): the
interval is closed, not half-open, on the right; the right endpoint is
attained at address tail bytes 255.255. Parse failures map to (0, 0), which
also lies in these intervals. -/
theorem C2_coordinate_bounds (addr : String) (W H : Int) (hW : 0 < W) (hH : 0 < H) :
    (-(Int.tdiv W 2) ≤ (IPToXY addr W H).1 ∧ (IPToXY addr W H).1 ≤ W - Int.tdiv W 2) ∧
      (-(Int.tdiv H 2) ≤ (IPToXY addr W H).2 ∧ (IPToXY addr W H).2 ≤ H - Int.tdiv H 2) := by
  have htW : Int.tdiv W 2 = W / 2 := Int.tdiv_eq_ediv (by omega) (by norm_num)
  have htH : Int.tdiv H 2 = H / 2 := Int.tdiv_eq_ediv (by omega) (by norm_num)
  match hp : ParseIP addr with
  | none =>
    simp only [IPToXY, hp]
    rw [htW, htH]
    refine ⟨⟨?_, ?_⟩, ?_, ?_⟩ <;> simp <;> omega
  | some ip =>
    obtain ⟨hlen, hbnd⟩ := ParseIP_sound addr ip hp
    have h12 : ip.getD 12 0 < 256 := hbnd _ (getD_mem_of_lt (by omega))
    have h13 : ip.getD 13 0 < 256 := hbnd _ (getD_mem_of_lt (by omega))
    have h14 : ip.getD 14 0 < 256 := hbnd _ (getD_mem_of_lt (by omega))
    have h15 : ip.getD 15 0 < 256 := hbnd _ (getD_mem_of_lt (by omega))
    have hx := scale_bounds (ip.getD 12 0 * 256 + ip.getD 13 0) W (by omega) (by omega)
    have hy := scale_bounds (ip.getD 14 0 * 256 + ip.getD 15 0) H (by omega) (by omega)
    simp only [IPToXY, hp]
    obtain ⟨hx1, hx2⟩ := hx
    obtain ⟨hy1, hy2⟩ := hy
    refine ⟨⟨by omega, by omega⟩, by omega, by omega⟩

/-- Witness for the amended C2 bounds at a concrete address and world size. -/
theorem C2_witness :
    (0 : Int) < 100 ∧
      (-(Int.tdiv 100 2) ≤ (IPToXY "10.0.0.1" 100 100).1 ∧
        (IPToXY "10.0.0.1" 100 100).1 ≤ 100 - Int.tdiv 100 2) ∧
      (-(Int.tdiv 100 2) ≤ (IPToXY "10.0.0.1" 100 100).2 ∧
        (IPToXY "10.0.0.1" 100 100).2 ≤ 100 - Int.tdiv 100 2) :=
  ⟨by decide,
    (C2_coordinate_bounds "10.0.0.1" 100 100 (by decide) (by decide)).1,
    (C2_coordinate_bounds "10.0.0.1" 100 100 (by decide) (by decide)).2⟩

/-- C9: the address-to-coordinate mapping is total: for every input string
the parser either fails, in which case the coordinate is (0, 0), or
produces a 16-byte address whose bytes (in particular indices 12-15) are in
range, and the coordinate is computed from bytes 12-15 by the same formula
regardless of address family. In particular the syntactically valid IPv6
literal `2001:db8::a00:1` (last four bytes 10.0.0.1) is not treated as
unparsable and maps to the same coordinate as `10.0.0.1`, for every world
size. -/
theorem C9_address_mapping_total :
    (∀ (s : String) (W H : Int),
        (ParseIP s = none ∧ IPToXY s W H = (0, 0)) ∨
          ∃ ip, ParseIP s = some ip ∧ ip.length = 16 ∧ (∀ b ∈ ip, b < 256) ∧
            IPToXY s W H
              = (truncQ (((ip.getD 12 0 * 256 + ip.getD 13 0 : Nat) : ℚ) / 65535 * (W : ℚ))
                  - Int.tdiv W 2,
                truncQ (((ip.getD 14 0 * 256 + ip.getD 15 0 : Nat) : ℚ) / 65535 * (H : ℚ))
                  - Int.tdiv H 2)) ∧
      (ParseIP "2001:db8::a00:1").isSome = true ∧
      ∀ W H : Int, IPToXY "2001:db8::a00:1" W H = IPToXY "10.0.0.1" W H := by
  refine ⟨fun s W H => ?_, rfl, fun W H => ?_⟩
  · match hp : ParseIP s with
    | none => exact Or.inl ⟨rfl, by simp [IPToXY, hp]⟩
    | some ip =>
      obtain ⟨hlen, hb⟩ := ParseIP_sound s ip hp
      exact Or.inr ⟨ip, rfl, hlen, hb, by simp [IPToXY, hp]⟩
  · have h1 : ParseIP "2001:db8::a00:1"
        = some [32, 1, 13, 184, 0, 0, 0, 0, 0, 0, 0, 0, 10, 0, 0, 1] := rfl
    have h2 : ParseIP "10.0.0.1"
        = some [0, 0, 0, 0, 0, 0, 0, 0, 0, 0, 255, 255, 10, 0, 0, 1] := rfl
    simp only [IPToXY, h1, h2]
    rfl

/-!
Line parsing. `LineToPattern` (src/main.go lines 293-326) splits the line on
the first three spaces, rejects a missing client address, splits the fourth
field on the first `]`, parses the bracketed timestamp with Go layout
`02/Jan/2006:15:04:05 -0700`, and XOR-folds the bytes after the `]`. Go
slice indexing is partial: `fields[3]` on a short line, `fields[0][1:]` on
an empty left part and `fields[1]` when no `]` is present all panic at run
time; the model returns the distinguished `crash` outcome there.
-/

/-- Characters of a string literal. -/
def strChars (s : String) : List Char := s.data

/-- Position of the first separator, Go `strings.Index` style: the part
before and the part after. -/
def splitOnce (sep : Char) : List Char → Option (List Char × List Char)
  | [] => none
  | c :: rest =>
    if c = sep then some ([], rest)
    else
      match splitOnce sep rest with
      | none => none
      | some (pre, post) => some (c :: pre, post)

/-- Go `strings.SplitN` with a single-character separator and n ≥ 0: at most
n parts, the last part unsplit; the empty string gives one empty part. -/
def splitN (sep : Char) : List Char → Nat → List (List Char)
  | _, 0 => []
  | s, 1 => [s]
  | s, n + 2 =>
    match splitOnce sep s with
    | none => [s]
    | some (pre, post) => pre :: splitN sep post (n + 1)

/-- ASCII/Latin-1 white space, as in Go `unicode.IsSpace` restricted to the
code points a split field can contain. -/
def isSpaceChar (c : Char) : Bool :=
  c = ' ' ∨ c = '\t' ∨ c = '\n' ∨ c.toNat = 11 ∨ c.toNat = 12 ∨ c = '\r' ∨
    c.toNat = 133 ∨ c.toNat = 160

/-- Decimal digit value. -/
def digitVal (c : Char) : Option Nat :=
  if '0' ≤ c ∧ c ≤ '9' then some (c.toNat - 48) else none

/-- Two fixed decimal digits (Go `getnum` with fixed width). -/
def get2 : List Char → Option (Nat × List Char)
  | c1 :: c2 :: rest =>
    match digitVal c1, digitVal c2 with
    | some d1, some d2 => some (d1 * 10 + d2, rest)
    | _, _ => none
  | _ => none

/-- Four fixed decimal digits (Go long year). -/
def get4 : List Char → Option (Nat × List Char)
  | c1 :: c2 :: c3 :: c4 :: rest =>
    match digitVal c1, digitVal c2, digitVal c3, digitVal c4 with
    | some a, some b, some c, some d => some (((a * 10 + b) * 10 + c) * 10 + d, rest)
    | _, _, _, _ => none
  | _ => none

/-- One or two decimal digits (Go `getnum` with fixed = false, used for the
hour). -/
def get1or2 : List Char → Option (Nat × List Char)
  | [] => none
  | c1 :: rest =>
    match digitVal c1 with
    | none => none
    | some d1 =>
      match rest with
      | [] => some (d1, [])
      | c2 :: rest2 =>
        match digitVal c2 with
        | some d2 => some (d1 * 10 + d2, rest2)
        | none => some (d1, rest)

/-- One expected literal character. -/
def expectChar (c : Char) : List Char → Option (List Char)
  | x :: rest => if x = c then some rest else none
  | [] => none

/-- ASCII lower casing, for Go's case-insensitive month-name lookup. -/
def lowerChar (c : Char) : Char :=
  if 'A' ≤ c ∧ c ≤ 'Z' then Char.ofNat (c.toNat + 32) else c

def monthNames : List (List Char) :=
  [['j', 'a', 'n'], ['f', 'e', 'b'], ['m', 'a', 'r'], ['a', 'p', 'r'],
   ['m', 'a', 'y'], ['j', 'u', 'n'], ['j', 'u', 'l'], ['a', 'u', 'g'],
   ['s', 'e', 'p'], ['o', 'c', 't'], ['n', 'o', 'v'], ['d', 'e', 'c']]

def monthLookup (cs : List Char) : List (List Char) → Nat → Option Nat
  | [], _ => none
  | n :: rest, i => if cs = n then some i else monthLookup cs rest (i + 1)

/-- Month number (1-12) of a three-letter abbreviation, case-insensitive. -/
def monthNumber (cs : List Char) : Option Nat :=
  monthLookup (cs.map lowerChar) monthNames 1

/-- Proleptic Gregorian leap year, as in Go's `isLeap`. -/
def isLeap (y : Nat) : Bool := y % 4 = 0 ∧ (y % 100 ≠ 0 ∨ y % 400 = 0)

def daysBeforeMonth : List Nat := [0, 31, 59, 90, 120, 151, 181, 212, 243, 273, 304, 334]

/-- Length of a month, for Go's day range check. -/
def daysInMonth (m y : Nat) : Nat :=
  if m = 2 then (if isLeap y then 29 else 28)
  else if m = 4 ∨ m = 6 ∨ m = 9 ∨ m = 11 then 30
  else 31

/-- Absolute seconds of a civil date-time with a UTC offset, counted from
0001-01-01T00:00:00 UTC as Go's internal absolute time does (the zero
`time.Time` is 0; Unix time is this minus 62135596800). -/
def absSeconds (y m d hh mi ss : Nat) (offset : Int) : Int :=
  let days : Nat := 365 * (y - 1) + (y - 1) / 4 - (y - 1) / 100 + (y - 1) / 400
      + daysBeforeMonth.getD (m - 1) 0 + (if 2 < m ∧ isLeap y then 1 else 0) + (d - 1)
  (days : Int) * 86400 + ((hh * 3600 + mi * 60 + ss : Nat) : Int) - offset

/-- Go `time.Parse` with the fixed layout `02/Jan/2006:15:04:05 -0700`:
two-digit day, case-insensitive month abbreviation, four-digit year,
one-or-two-digit hour, two-digit minute and second, a space, a sign and a
four-digit numeric zone; the whole string must be consumed; hour, minute,
second and day-of-month ranges are checked as Go does. Returns the absolute
second count of the instant. -/
def parseCLFTime (s : List Char) : Option Int := do
  let (day, r1) ← get2 s
  let r2 ← expectChar '/' r1
  let m ← monthNumber (r2.take 3)
  let r4 ← expectChar '/' (r2.drop 3)
  let (year, r5) ← get4 r4
  let r6 ← expectChar ':' r5
  let (hour, r7) ← get1or2 r6
  let r8 ← expectChar ':' r7
  let (minute, r9) ← get2 r8
  let r10 ← expectChar ':' r9
  let (second, r11) ← get2 r10
  let r12 ← expectChar ' ' r11
  let (sign, r13) ←
    match r12 with
    | '+' :: rest => some ((1 : Int), rest)
    | '-' :: rest => some ((-1 : Int), rest)
    | _ => none
  let (zh, r14) ← get2 r13
  let (zm, r15) ← get2 r14
  if r15 = [] then
    if hour ≤ 23 ∧ minute ≤ 59 ∧ second ≤ 59 ∧ 1 ≤ day ∧ day ≤ daysInMonth m year then
      some (absSeconds year m day hour minute second (sign * ((zh : Int) * 3600 + (zm : Int) * 60)))
    else none
  else none

/-- Outcome of processing one line: a pattern with its timestamp, a returned
error (logged; the loop continues), or a runtime panic (the process dies). -/
inductive LineResult where
  | ok (pattern : List String) (timestamp : Int)
  | err (msg : String)
  | crash
deriving DecidableEq

/-- LineToPattern (src/main.go lines 293-326). `fields.get? 3 = none`
models the Go panic `index out of range` on `fields[3]` for a line with
fewer than four space-separated fields; an empty part before the `]` makes
`fields[0][1:]` panic; a missing `]` with a parseable bracket content makes
`fields[1]` panic. -/
def LineToPattern (line : List Char) (width height : Int) : LineResult :=
  let fields := splitN ' ' line 4
  if fields.headD [] = ['-'] ∨ (fields.headD []).all isSpaceChar then
    .err "No client IP address"
  else
    let xy := IPToXY (String.mk (fields.headD [])) width height
    match fields.get? 3 with
    | none => .crash
    | some f3 =>
      let fs := splitN ']' f3 2
      match fs.headD [] with
      | [] => .crash
      | _ :: tsChars =>
        match parseCLFTime tsChars with
        | none => .err "parsing time error"
        | some ts =>
          match fs.get? 1 with
          | none => .crash
          | some g1 =>
            .ok (MakeLife105 xy.1 xy.2 (encode (g1.map Char.toNat))) ts

/-- Outcome of a whole run over its input lines. -/
inductive RunResult where
  | completed
  | aborted (lineIdx : Nat)
deriving DecidableEq

/-- The scanner loop of `main` (src/main.go lines 262-286), as far as
control flow goes: a parse error is logged and the loop continues; a
delivered pattern is printed and sent, and the transport outcome
(`sendFails`, indexed by line) only feeds a printed message, never control
flow; a panic aborts the run at that line. Pacing (`time.Sleep`) does not
affect which lines are processed. -/
def mainLoop (w h : Int) : List (List Char) → Nat → (Nat → Bool) → RunResult
  | [], _, _ => .completed
  | l :: rest, i, sendFails =>
    match LineToPattern l w h with
    | .crash => .aborted i
    | _ => mainLoop w h rest (i + 1) sendFails

/-- The concrete log line of the spec's parsing example. -/
def c1LineChars : List Char :=
  strChars "10.0.0.1 - - [20/Nov/2022:02:27:49 +0000] \"GET / HTTP/1.1\" 200 100"

/-!
Playback pacing. The main loop (src/main.go lines 260-278) keeps
`lastTime`, initially the zero `time.Time` (absolute second 0 in this
model), and before each record with a previous timestamp sleeps for
`time.Duration(float64(timestamp.Sub(lastTime).Microseconds())*1/cfg.Speed) * time.Microsecond`.
The integer semantics of that line are modelled step by step:
  - `time.Time.Sub` returns an `int64` nanosecond count and saturates at
    the `Duration` range bounds -2^63 and 2^63-1 on overflow (`subNs`);
    timestamps here come from `parseCLFTime`, whole seconds, so the
    unsaturated difference is exactly `(t2 - t1) * 1000000000`.
  - `Microseconds()` divides by 1000 truncating toward zero (`subMicros`).
  - the `float64` conversion, `* 1` and `/ speed` are modelled with exact
    rational arithmetic. This is exact whenever the microsecond count and
    the quotient stay at or below 2^53 in magnitude and the speed and
    quotient are exactly representable; every theorem below confines
    itself to such inputs (by hypothesis or at its concrete values, as
    noted). Division by speed 0 yields an IEEE infinity or NaN, whose
    integer conversion is implementation-defined: `delayNs` returns `none`.
  - `time.Duration(...)` truncates toward zero when the value fits in
    `int64`; an out-of-range value converts to an implementation-defined
    result (Go spec), modelled `none` (`durationOfFloat`).
  - the final `* time.Microsecond` is an `int64` multiplication by 1000,
    which on overflow wraps modulo 2^64 by Go's defined two's-complement
    semantics (`wrap64`). The wrap is reachable: a large gap or a tiny
    speed magnitude can turn the delay into a huge positive sleep, so the
    no-overflow hypotheses of the theorems below are necessary, as the
    concrete wrap case inside the C3 theorem shows.
The numeric literals 9223372036854775808, 9223372036854775807,
18446744073709551616 and 9007199254740992 are 2^63, 2^63 - 1, 2^64 and
2^53.
-/

/-- Two's-complement wraparound of an `int64` product: Go's defined
overflow behaviour of the final `* time.Microsecond`. -/
def wrap64 (x : Int) : Int :=
  (x + 9223372036854775808) % 18446744073709551616 - 9223372036854775808

/-- `time.Time.Sub` of two whole-second instants, in nanoseconds,
saturated to the `Duration` range as Go's `Sub` does on overflow. -/
def subNs (t1 t2 : Int) : Int :=
  if (t2 - t1) * 1000000000 < -9223372036854775808 then -9223372036854775808
  else if 9223372036854775807 < (t2 - t1) * 1000000000 then 9223372036854775807
  else (t2 - t1) * 1000000000

/-- `Duration.Microseconds()`: `int64` division by 1000, truncating toward
zero. -/
def subMicros (t1 t2 : Int) : Int := Int.tdiv (subNs t1 t2) 1000

/-- Conversion `time.Duration(f)` of the float-modelled value: truncation
toward zero when the result fits `int64`; otherwise the Go result is
implementation-defined and the model returns `none`. -/
def durationOfFloat (q : ℚ) : Option Int :=
  if -9223372036854775808 ≤ truncQ q ∧ truncQ q ≤ 9223372036854775807 then some (truncQ q)
  else none

/-- The sleep duration in nanoseconds computed at src/main.go line 274, or
`none` where the Go result is implementation-defined (speed 0, or a
quotient outside the `int64` range). -/
def delayNs (t1 t2 : Int) (speed : ℚ) : Option Int :=
  if speed = 0 then none
  else
    (durationOfFloat (((subMicros t1 t2 : Int) : ℚ) * 1 / speed)).map
      (fun d => wrap64 (d * 1000))

/-- Effective delay of one loop iteration: the sleep is skipped entirely
when `lastTime` is the zero time (src/main.go lines 272-277). -/
def loopDelayNs (lastTime t : Int) (speed : ℚ) : Option Int :=
  if lastTime = 0 then some 0 else delayNs lastTime t speed

theorem truncQ_nonpos {q : ℚ} (h : q ≤ 0) : truncQ q ≤ 0 := by
  have hnum : q.num ≤ 0 := Rat.num_nonpos.2 h
  have h2 : 0 ≤ (-q.num).tdiv (q.den : Int) :=
    Int.tdiv_nonneg (by omega) (by exact_mod_cast Nat.zero_le q.den)
  have h3 : (-q.num).tdiv (q.den : Int) = -(q.num.tdiv (q.den : Int)) := Int.neg_tdiv _ _
  rw [truncQ]
  omega

theorem truncQ_eq_of {q : ℚ} {n : Int} (h0 : 0 ≤ q) (h1 : (n : ℚ) ≤ q)
    (h2 : q < (n : ℚ) + 1) : truncQ q = n := by
  rw [truncQ_eq_floor h0]
  exact Int.floor_eq_iff.mpr ⟨h1, h2⟩

theorem wrap64_eq_of_range {x : Int} (h1 : -9223372036854775808 ≤ x)
    (h2 : x ≤ 9223372036854775807) : wrap64 x = x := by
  rw [wrap64, Int.emod_eq_of_lt (by omega) (by omega)]
  omega

theorem subNs_nonneg {t1 t2 : Int} (h : t1 ≤ t2) : 0 ≤ subNs t1 t2 := by
  have hd : 0 ≤ (t2 - t1) * 1000000000 := by omega
  rw [subNs]
  split
  · omega
  · split <;> omega

theorem subMicros_nonneg {t1 t2 : Int} (h : t1 ≤ t2) : 0 ≤ subMicros t1 t2 :=
  Int.tdiv_nonneg (subNs_nonneg h) (by norm_num)

/-- Unsaturated, exactly-representable regime: when the gap keeps the
microsecond count at or below 2^53, `Sub` does not saturate and
`Microseconds()` is exactly `(t2 - t1) * 1000000`. -/
theorem subMicros_eq {t1 t2 : Int} (h : t1 ≤ t2)
    (hb : (t2 - t1) * 1000000 ≤ 9007199254740992) :
    subMicros t1 t2 = (t2 - t1) * 1000000 := by
  have hsub : subNs t1 t2 = (t2 - t1) * 1000000000 := by
    rw [subNs, if_neg (by omega), if_neg (by omega)]
  rw [subMicros, hsub, show (t2 - t1) * 1000000000 = (t2 - t1) * 1000000 * 1000 by ring,
    Int.mul_tdiv_cancel _ (by norm_num)]

/-- C3 counterexample: at speed -1 with a one-second gap the computed delay
is -1000000000 nanoseconds, not zero (the claim includes every speed at or
below zero). The double computation is exact here: 1000000.0 * 1 / -1.0 is
exactly -1000000.0, far inside the unwrapped `int64` range. -/
theorem C3_counterexample :
    loopDelayNs 100 101 (-1) = some (-1000000000) ∧ loopDelayNs 100 101 (-1) ≠ some 0 := by
  have h : loopDelayNs 100 101 (-1) = some (-1000000000) := by
    rw [loopDelayNs, if_neg (by norm_num), delayNs, if_neg (by norm_num)]
    have hsub : subMicros 100 101 = 1000000 := by decide
    have hq : ((1000000 : Int) : ℚ) * 1 / (-1 : ℚ) = ((-1000000 : Int) : ℚ) := by norm_num
    rw [hsub, hq, durationOfFloat, truncQ_intCast, if_pos (by norm_num), Option.map_some']
    rw [show wrap64 (-1000000 * 1000) = -1000000000 from by decide]
  exact ⟨h, by rw [h]; simp⟩

/-- C3 (amended): for every negative speed and ordered timestamps, as long
as the computed nanosecond product stays at or above -2^63 (no `int64`
wraparound), the computed delay is defined and non-positive (strictly
negative for a positive gap rather than zero), so `time.Sleep` returns
immediately and lines are forwarded without pacing. The no-wrap bound is
necessary: at speed -(1/1048576) = -2^-20 (exactly representable, and the
whole double computation is exact: 10800000000 and the quotient
-11324620800000000 are below 2^53 and the division is by a power of two) a
three-hour gap wraps to the positive delay 7122123273709551616 ns, about
225 years of sleep. At speed exactly 0 the float division by zero makes the
converted delay implementation-defined (`none` in the model), so the source
gives no zero-delay guarantee there. Sign is preserved by IEEE rounding and
truncation, so the non-positivity transfers to the code's double-precision
computation throughout the hypothesis range. -/
theorem C3_negative_speed_no_pacing :
    (∀ (t1 t2 : Int) (s : ℚ), t1 ≠ 0 → t1 ≤ t2 → s < 0 →
        -9223372036854775808 ≤ truncQ (((subMicros t1 t2 : Int) : ℚ) * 1 / s) * 1000 →
        ∃ d, loopDelayNs t1 t2 s = some d ∧ d ≤ 0) ∧
      loopDelayNs 1000 11800 (-(1 / 1048576)) = some 7122123273709551616 := by
  constructor
  · intro t1 t2 s ht1 hle hs hnw
    rw [loopDelayNs, if_neg ht1, delayNs, if_neg (by exact ne_of_lt hs)]
    have hmic : (0 : ℚ) ≤ ((subMicros t1 t2 : Int) : ℚ) * 1 := by
      rw [mul_one]
      exact_mod_cast subMicros_nonneg hle
    have hq : ((subMicros t1 t2 : Int) : ℚ) * 1 / s ≤ 0 :=
      div_nonpos_of_nonneg_of_nonpos hmic (le_of_lt hs)
    have hm : truncQ (((subMicros t1 t2 : Int) : ℚ) * 1 / s) ≤ 0 := truncQ_nonpos hq
    have hlow : -9223372036854775808 ≤ truncQ (((subMicros t1 t2 : Int) : ℚ) * 1 / s) := by
      omega
    rw [durationOfFloat, if_pos ⟨hlow, by omega⟩, Option.map_some']
    refine ⟨wrap64 (truncQ (((subMicros t1 t2 : Int) : ℚ) * 1 / s) * 1000), rfl, ?_⟩
    rw [wrap64_eq_of_range hnw (by omega)]
    omega
  · rw [loopDelayNs, if_neg (by norm_num), delayNs, if_neg (by norm_num)]
    have hsub : subMicros 1000 11800 = 10800000000 := by decide
    have hq : ((10800000000 : Int) : ℚ) * 1 / (-(1 / 1048576) : ℚ)
        = ((-11324620800000000 : Int) : ℚ) := by norm_num
    rw [hsub, hq, durationOfFloat, truncQ_intCast, if_pos (by norm_num), Option.map_some']
    rw [show wrap64 (-11324620800000000 * 1000) = 7122123273709551616 from by decide]

/-- Witness for the amended C3 at concrete timestamps and speed, the
no-wrap hypothesis discharged by evaluation. -/
theorem C3_witness :
    ((100 : Int) ≠ 0 ∧ (100 : Int) ≤ 101 ∧ (-1 : ℚ) < 0) ∧
      ∃ d, loopDelayNs 100 101 (-1) = some d ∧ d ≤ 0 := by
  refine ⟨⟨by norm_num, by norm_num, by norm_num⟩, ?_⟩
  apply C3_negative_speed_no_pacing.1 100 101 (-1) (by norm_num) (by norm_num) (by norm_num)
  have hsub : subMicros 100 101 = 1000000 := by decide
  rw [hsub, show ((1000000 : Int) : ℚ) * 1 / (-1 : ℚ) = ((-1000000 : Int) : ℚ) from by norm_num,
    truncQ_intCast]
  norm_num

/-- C8 counterexample: at speed 3 with a one-second gap the computed delay
is 333333000 nanoseconds (truncated to whole microseconds), while
`(t2 - t1) * (1 / s)` is 1000000000/3 nanoseconds; they differ. The double
computation truncates to the same integer microsecond count here, and no
saturation or wraparound is involved at these magnitudes. -/
theorem C8_counterexample :
    loopDelayNs 100 101 3 = some 333333000 ∧
      ((333333000 : ℚ) ≠ (1000000000 : ℚ) * (1 / 3)) := by
  constructor
  · rw [loopDelayNs, if_neg (by norm_num), delayNs, if_neg (by norm_num)]
    have hsub : subMicros 100 101 = 1000000 := by decide
    have hq : ((1000000 : Int) : ℚ) * 1 / (3 : ℚ) = (1000000 : ℚ) / 3 := by norm_num
    have ht : truncQ ((1000000 : ℚ) / 3) = 333333 :=
      truncQ_eq_of (by norm_num) (by norm_num) (by norm_num)
    rw [hsub, hq, durationOfFloat, ht, if_pos (by norm_num), Option.map_some']
    rw [show wrap64 (333333 * 1000) = 333333000 from by decide]
  · norm_num

/-- C8 (amended): the delay is zero when no previous timestamp exists (the
zero `lastTime`); provided the gap keeps the microsecond count at or below
2^53 — inside that range `Sub` does not saturate, the double computation at
these speeds is exact and the final multiply does not wrap — the delay at
speed 1.0 equals `t2 - t1` exactly and at speed 2.0 exactly
`(t2 - t1) / 2`; in general, for any nonzero speed, the delay is the
quotient truncated toward zero to a whole number of microseconds, then
wrapped into `int64` by the nanosecond multiply (so beyond the range bound
the sign can flip: with a gap over 2^63 nanoseconds `Sub` saturates and at
speed 1.0 the rounded microsecond count wraps the product negative). Only
the two consecutive timestamps enter the computation: processing time is
not subtracted. -/
theorem C8_delay_formula :
    (∀ (t : Int) (s : ℚ), loopDelayNs 0 t s = some 0) ∧
      (∀ t1 t2 : Int, t1 ≠ 0 → t1 ≤ t2 → (t2 - t1) * 1000000 ≤ 9007199254740992 →
        loopDelayNs t1 t2 1 = some ((t2 - t1) * 1000000000)) ∧
      (∀ t1 t2 : Int, t1 ≠ 0 → t1 ≤ t2 → (t2 - t1) * 1000000 ≤ 9007199254740992 →
        loopDelayNs t1 t2 2 = some ((t2 - t1) * 500000000)) ∧
      (∀ (t1 t2 : Int) (s : ℚ), t1 ≠ 0 → s ≠ 0 →
        loopDelayNs t1 t2 s
          = (durationOfFloat (((subMicros t1 t2 : Int) : ℚ) * (1 / s))).map
              (fun d => wrap64 (d * 1000))) := by
  refine ⟨fun t s => rfl, fun t1 t2 h1 hle hb => ?_, fun t1 t2 h1 hle hb => ?_,
    fun t1 t2 s h1 hs => ?_⟩
  · have hg : 0 ≤ t2 - t1 := by omega
    rw [loopDelayNs, if_neg h1, delayNs, if_neg (by norm_num), subMicros_eq hle hb]
    have hq : (((t2 - t1) * 1000000 : Int) : ℚ) * 1 / 1
        = (((t2 - t1) * 1000000 : Int) : ℚ) := by rw [mul_one, div_one]
    rw [hq, durationOfFloat, truncQ_intCast, if_pos ⟨by omega, by omega⟩, Option.map_some',
      wrap64_eq_of_range (by omega) (by omega)]
    rw [show (t2 - t1) * 1000000 * 1000 = (t2 - t1) * 1000000000 from by ring]
  · have hg : 0 ≤ t2 - t1 := by omega
    rw [loopDelayNs, if_neg h1, delayNs, if_neg (by norm_num), subMicros_eq hle hb]
    have hq : (((t2 - t1) * 1000000 : Int) : ℚ) * 1 / 2
        = (((t2 - t1) * 500000 : Int) : ℚ) := by push_cast; ring
    have hhalf : (t2 - t1) * 500000 ≤ 9007199254740992 := by omega
    rw [hq, durationOfFloat, truncQ_intCast, if_pos ⟨by omega, by omega⟩, Option.map_some',
      wrap64_eq_of_range (by omega) (by omega)]
    rw [show (t2 - t1) * 500000 * 1000 = (t2 - t1) * 500000000 from by ring]
  · rw [loopDelayNs, if_neg h1, delayNs, if_neg hs,
      show ((subMicros t1 t2 : Int) : ℚ) * 1 / s = ((subMicros t1 t2 : Int) : ℚ) * (1 / s)
        from by rw [mul_one, div_eq_mul_one_div]]

/-- Witness for the amended C8 at concrete timestamps, every hypothesis
discharged at the instance. -/
theorem C8_witness :
    loopDelayNs 0 5 3 = some 0 ∧
      ((100 : Int) ≠ 0 ∧ (100 : Int) ≤ 103 ∧ (103 - 100 : Int) * 1000000 ≤ 9007199254740992 ∧
        loopDelayNs 100 103 1 = some ((103 - 100) * 1000000000)) ∧
      ((100 : Int) ≠ 0 ∧ (100 : Int) ≤ 103 ∧ (103 - 100 : Int) * 1000000 ≤ 9007199254740992 ∧
        loopDelayNs 100 103 2 = some ((103 - 100) * 500000000)) :=
  ⟨C8_delay_formula.1 5 3,
    ⟨by norm_num, by norm_num, by norm_num,
      C8_delay_formula.2.1 100 103 (by norm_num) (by norm_num) (by norm_num)⟩,
    ⟨by norm_num, by norm_num, by norm_num,
      C8_delay_formula.2.2.1 100 103 (by norm_num) (by norm_num) (by norm_num)⟩⟩

/-- C4 (code bug): a line with fewer than four space-separated fields, such
as `10.0.0.1 - -`, makes `LineToPattern` index `fields[3]` out of range: a
runtime panic, not a returned error, so the run aborts at that line and no
later line is processed, whatever the transport outcomes are — contradicting
the propagation policy that nothing per-line is ever fatal. -/
theorem C4_short_line_panics :
    LineToPattern (strChars "10.0.0.1 - -") 100 100 = LineResult.crash ∧
      ∀ sendFails : Nat → Bool,
        mainLoop 100 100 [strChars "10.0.0.1 - -", c1LineChars] 0 sendFails
          = RunResult.aborted 0 :=
  ⟨rfl, fun _ => rfl⟩

/-- C1 (amended): parsing the example log line yields address `10.0.0.1`
(the pattern position is `IPToXY` of exactly that address), timestamp
2022-11-20T02:27:49+00:00 (Unix second 1668911269; the model counts from
year 1, which is 62135596800 seconds before Unix), and the byte sequence
fed to the fingerprint fold is the entire remainder after the first `]`,
namely ` "GET / HTTP/1.1" 200 100` — the leading space and the trailing
` 200 100` contribute to the fold, whose own loop then skips the quote
bytes. -/
theorem C1_example_line_parse :
    LineToPattern c1LineChars 100 100
      = LineResult.ok
          (MakeLife105 (IPToXY "10.0.0.1" 100 100).1 (IPToXY "10.0.0.1" 100 100).2
            (encode (strBytes " \"GET / HTTP/1.1\" 200 100")))
          (1668911269 + 62135596800) := rfl

/-- C1 counterexample: the pattern the program produces for the example
line is not the one predicted by the claim (fold input exactly
`GET / HTTP/1.1`): the fingerprints of the two fold inputs differ, so the
claimed payload is wrong — the bytes after the closing quote do contribute. -/
theorem C1_counterexample :
    LineToPattern c1LineChars 100 100
        ≠ LineResult.ok
            (MakeLife105 (IPToXY "10.0.0.1" 100 100).1 (IPToXY "10.0.0.1" 100 100).2
              (encode (strBytes "GET / HTTP/1.1")))
            (1668911269 + 62135596800) ∧
      encode (strBytes " \"GET / HTTP/1.1\" 200 100") ≠ encode (strBytes "GET / HTTP/1.1") := by
  constructor
  · intro heq
    have h1 : LineToPattern c1LineChars 100 100
        = LineResult.ok
            (MakeLife105 (IPToXY "10.0.0.1" 100 100).1 (IPToXY "10.0.0.1" 100 100).2
              (encode (strBytes " \"GET / HTTP/1.1\" 200 100")))
            (1668911269 + 62135596800) := rfl
    rw [h1] at heq
    injection heq with hpat hts
    have hrow := congrArg (fun l => l.getD 4 "") hpat
    exact absurd hrow (by decide)
  · decide

end Log2Life
